import Mathlib

/-!
Verification of the repository-synchronization engine of `ctxswitch/gdoc`.

The engine (package `syncer`) polls the GitHub API for repositories carrying a
topic, detects new/changed repositories by comparing head-commit SHAs against an
in-memory map, and clones or pulls a local mirror for each changed repository.
The definitions below are a shallow embedding of that Go code:

* `Repo`, `keyOf`, `update` — the repository record and change detector
  (`internal/syncer`, functions `update`, type `Repo`);
* `get`, `clone`, `pull` — the local mirror manager (`Syncer.get` and the two
  git operations it dispatches to, with the transport as an oracle);
* `sync`, `syncGo`, `syncStep` — one poll cycle (`Syncer.sync`), with the
  GitHub client, filesystem and git transport abstracted into an `Env` of
  oracles, and the Go `context.Context` modelled as an index `cancelAt` from
  which every context-aware network call fails;
* `parseDuration` — Go's `time.ParseDuration`, which `Start` applies to the
  configured poll interval (standard-library semantics; the fractional-part
  contribution, computed by Go in `float64`, is embedded as the exact integer
  `f * unit / scale`, which agrees with the source whenever the float
  computation is exact — in particular on every input evaluated below);
* `start`, `startAux`, `tickerFireTime` — the engine entry point
  (`Syncer.Start`): parse the interval, arm a ticker (`time.NewTicker` panics
  on a non-positive duration and fires first after one full interval), then
  loop on a `select` over ticker ticks and context cancellation, modelled as
  consuming a list of observed events.
-/

set_option autoImplicit false

namespace Gdoc

/-- `syncer.Repo` (internal/syncer/repo.go): the attributes of a GitHub
repository required by the Syncer service. -/
structure Repo where
  owner     : String
  name      : String
  cloneURL  : String
  commitSHA : String
  localPath : String
deriving DecidableEq, Repr

/-- The retained record set `Syncer.repos : map[string]*Repo`, embedded as an
association list from key strings to records. -/
abbrev RepoMap := List (String × Repo)

/-- Go map read `rs.repos[name]`: the value stored at a key, if present. -/
def mapFind (m : RepoMap) (k : String) : Option Repo :=
  match m with
  | [] => none
  | (k2, v) :: rest => if k = k2 then some v else mapFind rest k

/-- Go map write `rs.repos[name] = r`: replace the binding of `k` in place, or
append it when absent. -/
def mapInsert (m : RepoMap) (k : String) (v : Repo) : RepoMap :=
  match m with
  | [] => [(k, v)]
  | (k2, v2) :: rest =>
    if k = k2 then (k, v) :: rest else (k2, v2) :: mapInsert rest k v

/-- The map key computed by `Syncer.update`:
`name := r.Name + "/" + r.Owner`. -/
def keyOf (r : Repo) : String := r.name ++ "/" ++ r.owner

/-- `Syncer.update` (change detector): returns whether the repository changed
since the last cycle, threading the retained record set explicitly.
Unknown key: insert, report `true`. Known key with equal `CommitSHA`: report
`false` without mutation. Known key with differing `CommitSHA`: replace the
record, report `true`. -/
def update (repos : RepoMap) (r : Repo) : Bool × RepoMap :=
  let name := keyOf r
  match mapFind repos name with
  | none => (true, mapInsert repos name r)
  | some stored =>
    if r.commitSHA = stored.commitSHA then (false, repos)
    else (true, mapInsert repos name r)

/-- A repository as returned by the GitHub search API: the fields of
`*github.Repository` that `Syncer.sync` reads. -/
structure GhRepo where
  ownerLogin    : String
  name          : String
  cloneURL      : String
  fullName      : String
  defaultBranch : String
deriving DecidableEq, Repr

/-- The external world one poll cycle runs against: the GitHub client, the
filesystem and the git transport, as oracles, plus the cancellation status of
the `context.Context` passed to `sync`. `cancelAt = some k` means the shared
cancellation signal is raised just before the loop reaches repository index
`k`; from then on every context-aware network call fails. `searchResult =
none` means `client.Search.Repositories` returns an error; `branchSHA g =
none` means `client.Repositories.GetBranch` fails for `g`. -/
structure Env where
  goRoot       : String
  searchResult : Option (List GhRepo)
  branchSHA    : GhRepo → Option String
  cancelAt     : Option Nat
  fsExists     : String → Bool
  cloneFails   : Repo → Bool
  pullFails    : Repo → Bool

/-- Whether the context is cancelled when repository index `i` is processed. -/
def isCancelled (env : Env) (i : Nat) : Bool :=
  match env.cancelAt with
  | none => false
  | some k => k ≤ i

/-- `GetBranch` as observed at loop index `i`: the oracle's answer under a live
context, failure under a cancelled one. -/
def getBranch (env : Env) (i : Nat) (g : GhRepo) : Option String :=
  if isCancelled env i then none else env.branchSHA g

/-- The `Repo` literal built at the top of `sync`'s loop body:
`LocalPath = fmt.Sprintf("%s/src/github.com/%s", rs.options.GoRoot, *repo.FullName)`. -/
def mkRepo (goRoot : String) (g : GhRepo) : Repo :=
  { owner := g.ownerLogin
    name := g.name
    cloneURL := g.cloneURL
    commitSHA := ""
    localPath := goRoot ++ "/src/github.com/" ++ g.fullName }

/-- Which mirror operation `Syncer.get` dispatches to. -/
inductive MirrorOp
  | clone
  | pull
deriving DecidableEq, Repr

/-- `Syncer.clone`: a `git.PlainClone` against the transport oracle; `true`
is a nil error. It touches neither the record set nor the decision logic. -/
def clone (env : Env) (r : Repo) : Bool := !env.cloneFails r

/-- `Syncer.pull`: opening and pulling the existing working copy against the
transport oracle; `true` is a nil error. -/
def pull (env : Env) (r : Repo) : Bool := !env.pullFails r

/-- `Syncer.get`: `os.Stat(r.LocalPath)`; when the path does not exist, clone,
otherwise pull. Returns the operation dispatched and its outcome. -/
def get (env : Env) (r : Repo) : MirrorOp × Bool :=
  if !env.fsExists r.localPath then (MirrorOp.clone, clone env r)
  else (MirrorOp.pull, pull env r)

/-- What one iteration of `sync`'s repository loop did, for the trace. -/
inductive SyncAction
  | searchFailed
  | branchFailed (g : GhRepo)
  | unchanged (r : Repo)
  | mirrored (r : Repo) (op : MirrorOp) (ok : Bool)
deriving DecidableEq, Repr

/-- One iteration of `Syncer.sync`'s loop at index `i`: build the record,
resolve the default branch's head commit (skip the repository on failure),
run the change detector, and dispatch `get` when changed. -/
def syncStep (env : Env) (i : Nat) (m : RepoMap) (g : GhRepo) :
    RepoMap × SyncAction :=
  let r0 := mkRepo env.goRoot g
  match getBranch env i g with
  | none => (m, SyncAction.branchFailed g)
  | some sha =>
    let r := { r0 with commitSHA := sha }
    let res := update m r
    if !res.1 then (res.2, SyncAction.unchanged r)
    else
      let gr := get env r
      (res.2, SyncAction.mirrored r gr.1 gr.2)

/-- `Syncer.sync`'s loop over the search results, from index `i`. -/
def syncGo (env : Env) : List GhRepo → Nat → RepoMap → RepoMap × List SyncAction
  | [], _, m => (m, [])
  | g :: rest, i, m =>
    let step := syncStep env i m g
    let next := syncGo env rest (i + 1) step.1
    (next.1, step.2 :: next.2)

/-- `Syncer.sync`: one poll cycle. A failed search aborts the cycle; otherwise
every returned repository is fed through `syncStep` in order. -/
def sync (env : Env) (m : RepoMap) : RepoMap × List SyncAction :=
  match env.searchResult with
  | none => (m, [SyncAction.searchFailed])
  | some l => syncGo env l 0 m

/-- Go `time/format.go` `leadingInt`: consume leading decimal digits into an
accumulator, failing (`none`) on overflow past `2^63`. -/
def leadingInt : Nat → List Char → Option (Nat × List Char)
  | x, [] => some (x, [])
  | x, c :: rest =>
    if c.toNat < 48 ∨ 57 < c.toNat then some (x, c :: rest)
    else if 2 ^ 63 / 10 < x then none
    else
      let x2 := x * 10 + (c.toNat - 48)
      if 2 ^ 63 < x2 then none
      else leadingInt x2 rest

/-- Go `time/format.go` `leadingFraction`: consume digits after the decimal
point, tracking the scale and silently dropping digits once the accumulator
would overflow. -/
def leadingFraction : Nat → Nat → Bool → List Char → Nat × Nat × List Char
  | x, scale, _, [] => (x, scale, [])
  | x, scale, ovf, c :: rest =>
    if c.toNat < 48 ∨ 57 < c.toNat then (x, scale, c :: rest)
    else if ovf then leadingFraction x scale ovf rest
    else if (2 ^ 63 - 1) / 10 < x then leadingFraction x scale true rest
    else
      let y := x * 10 + (c.toNat - 48)
      if 2 ^ 63 < y then leadingFraction x scale true rest
      else leadingFraction y (scale * 10) false rest

/-- The unit-name scan of `ParseDuration`: take characters up to the next
digit or decimal point. -/
def splitUnit : List Char → List Char × List Char
  | [] => ([], [])
  | c :: rest =>
    if c = '.' ∨ (48 ≤ c.toNat ∧ c.toNat ≤ 57) then ([], c :: rest)
    else
      let p := splitUnit rest
      (c :: p.1, p.2)

/-- Go's `unitMap`: nanoseconds per duration unit. -/
def unitValue (u : List Char) : Option Nat :=
  if u = ['n', 's'] then some 1
  else if u = ['u', 's'] then some 1000
  else if u = ['µ', 's'] then some 1000
  else if u = ['μ', 's'] then some 1000
  else if u = ['m', 's'] then some 1000000
  else if u = ['s'] then some 1000000000
  else if u = ['m'] then some 60000000000
  else if u = ['h'] then some 3600000000000
  else none

/-- The unit application at the end of each `ParseDuration` iteration: look up
the unit, check `v` against `2^63 / unit`, scale, and add the fractional
contribution (`uint64(float64(f) * (float64(unit) / scale))` in the source,
exact integer arithmetic here). -/
def durUnit (orig : String) (v0 f scale : Nat) (s3 : List Char) :
    Except String (Nat × List Char) :=
  match splitUnit s3 with
  | (u, s4) =>
    if u = [] then Except.error ("time: missing unit in duration " ++ orig)
    else
      match unitValue u with
      | none =>
        Except.error ("time: unknown unit " ++ String.mk u ++ " in duration " ++ orig)
      | some unit =>
        if 2 ^ 63 / unit < v0 then Except.error ("time: invalid duration " ++ orig)
        else
          let v1 := v0 * unit
          let v2 := if 0 < f then v1 + f * unit / scale else v1
          if 2 ^ 63 < v2 then Except.error ("time: invalid duration " ++ orig)
          else Except.ok (v2, s4)

/-- One iteration of `ParseDuration`'s main loop: an optionally fractional
number followed by a unit. -/
def durIter (orig : String) (s : List Char) : Except String (Nat × List Char) :=
  match s with
  | [] => Except.error ("time: invalid duration " ++ orig)
  | c :: _ =>
    if c = '.' ∨ (48 ≤ c.toNat ∧ c.toNat ≤ 57) then
      match leadingInt 0 s with
      | none => Except.error ("time: invalid duration " ++ orig)
      | some (v0, s2) =>
        let pre : Bool := s2.length != s.length
        match s2 with
        | '.' :: r =>
          match leadingFraction 0 1 false r with
          | (f, scale, s3) =>
            let post : Bool := s3.length != r.length
            if !pre && !post then Except.error ("time: invalid duration " ++ orig)
            else durUnit orig v0 f scale s3
        | _ =>
          if !pre then Except.error ("time: invalid duration " ++ orig)
          else durUnit orig v0 0 1 s2
    else Except.error ("time: invalid duration " ++ orig)

/-- `ParseDuration`'s `for s != ""` loop, accumulating nanoseconds and checking
the running total against `2^63`. The fuel argument only bounds recursion; each
iteration consumes at least the unit character, so `length + 1` fuel never runs
out. -/
def parseLoop (orig : String) : Nat → List Char → Nat → Except String Nat
  | _, [], d => Except.ok d
  | 0, _ :: _, _ => Except.error ("time: invalid duration " ++ orig)
  | fuel + 1, s, d =>
    match durIter orig s with
    | Except.error e => Except.error e
    | Except.ok (v, rem) =>
      let d2 := d + v
      if 2 ^ 63 < d2 then Except.error ("time: invalid duration " ++ orig)
      else parseLoop orig fuel rem d2

/-- Go `time.ParseDuration`: sign, the `"0"` special case, then the
number-unit loop; the result is a signed nanosecond count. -/
def parseDuration (str : String) : Except String Int :=
  let orig := str
  let s0 := str.toList
  let signed : Bool × List Char :=
    match s0 with
    | c :: rest => if c = '-' ∨ c = '+' then (c = '-', rest) else (false, s0)
    | [] => (false, s0)
  let neg := signed.1
  let s1 := signed.2
  if s1 = ['0'] then Except.ok 0
  else if s1 = [] then Except.error ("time: invalid duration " ++ orig)
  else
    match parseLoop orig (s1.length + 1) s1 0 with
    | Except.error e => Except.error e
    | Except.ok d =>
      if neg then Except.ok (-(Int.ofNat d))
      else if 2 ^ 63 - 1 < d then Except.error ("time: invalid duration " ++ orig)
      else Except.ok (Int.ofNat d)

/-- A scheduler observation in `Start`'s `select`: a ticker tick or the
context's cancellation. -/
inductive Ev
  | tick
  | cancel
deriving DecidableEq, Repr

/-- The observable outcome of `Start`: the returned parse error, the
`NewTicker` panic, a `nil` return after cancellation, or a still-blocked loop
when the observation list is exhausted. -/
inductive StartResult
  | parseError (e : String)
  | panicked (msg : String)
  | stopped
  | running (repos : RepoMap)
deriving DecidableEq, Repr

/-- `Start`'s `for`/`select` loop: each tick runs one `sync` cycle against
that cycle's environment; a cancellation returns `nil` (`stopped`); an
exhausted observation list leaves the loop blocked (`running`). -/
def startAux (envs : Nat → Env) : List Ev → Nat → RepoMap → StartResult
  | [], _, m => StartResult.running m
  | Ev.tick :: rest, n, m => startAux envs rest (n + 1) (sync (envs n) m).1
  | Ev.cancel :: _, _, _ => StartResult.stopped

/-- Go `time.NewTicker(d)` fires at `d`, `2*d`, `3*d`, ... (Go standard
library semantics): the time of the k-th tick after the ticker is armed. -/
def tickerFireTime (d : Int) (k : Nat) : Int := ((k : Int) + 1) * d

/-- `Syncer.Start`: parse the poll interval (returning the error on failure),
arm the ticker — `time.NewTicker` panics when the parsed duration is not
positive — and run the loop with an initially empty record set. -/
def start (interval : String) (envs : Nat → Env) (evs : List Ev) : StartResult :=
  match parseDuration interval with
  | Except.error e => StartResult.parseError e
  | Except.ok d =>
    if d ≤ 0 then StartResult.panicked "non-positive interval for NewTicker"
    else startAux envs evs 0 []

/-- A concrete search hit used by witnesses. -/
def gA : GhRepo := ⟨"ctxswitch", "gdoc", "https://x/a.git", "ctxswitch/gdoc", "main"⟩

/-- A second concrete search hit used by witnesses. -/
def gB : GhRepo := ⟨"ctxswitch", "docs", "https://x/b.git", "ctxswitch/docs", "main"⟩

/-- Witness environment: one repository, everything succeeds, clone path. -/
def envA : Env :=
  ⟨"/go", some [gA], fun _ => some "c1", none,
    fun _ => false, fun _ => false, fun _ => false⟩

/-- Witness environment: like `envA` but the git transport fails every clone
and pull. -/
def envB : Env :=
  ⟨"/go", some [gA], fun _ => some "c1", none,
    fun _ => false, fun _ => true, fun _ => true⟩

/-- Witness environment: the search listing fails and branch resolution would
fail too. -/
def envF : Env :=
  ⟨"/go", none, fun _ => none, none,
    fun _ => false, fun _ => false, fun _ => false⟩

/-- Witness environment: two repositories discovered, cancellation signal
raised between the first and the second (`cancelAt = some 1`). -/
def envC8 : Env :=
  ⟨"/go", some [gA, gB], fun _ => some "c1", some 1,
    fun _ => false, fun _ => false, fun _ => false⟩

theorem mapFind_mapInsert (m : RepoMap) (k : String) (v : Repo) :
    mapFind (mapInsert m k v) k = some v := by
  induction m with
  | nil => simp [mapInsert, mapFind]
  | cons hd tl ih =>
    obtain ⟨k2, v2⟩ := hd
    by_cases h : k = k2
    · simp [mapInsert, h, mapFind]
    · simp [mapInsert, h, mapFind, ih]

/-- C1: an observation whose key is absent from the retained record set is
reported as new (`true`) and inserted; an immediately repeated identical
observation of the same key is reported as unchanged (`false`) with the record
set left intact — `New` occurs exactly once per key for identical input. -/
theorem update_new_once (m : RepoMap) (r : Repo)
    (h : mapFind m (keyOf r) = none) :
    update m r = (true, mapInsert m (keyOf r) r) ∧
    mapFind (mapInsert m (keyOf r) r) (keyOf r) = some r ∧
    update (mapInsert m (keyOf r) r) r = (false, mapInsert m (keyOf r) r) := by
  refine ⟨?_, mapFind_mapInsert m (keyOf r) r, ?_⟩
  · simp [update, h]
  · simp [update, mapFind_mapInsert]

theorem update_new_once_witness :
    mapFind [] (keyOf ⟨"ctxswitch", "gdoc", "u", "c1", "/go/src/g"⟩) = none ∧
    update [] ⟨"ctxswitch", "gdoc", "u", "c1", "/go/src/g"⟩ =
      (true, [("gdoc/ctxswitch", ⟨"ctxswitch", "gdoc", "u", "c1", "/go/src/g"⟩)]) ∧
    update [("gdoc/ctxswitch", ⟨"ctxswitch", "gdoc", "u", "c1", "/go/src/g"⟩)]
        ⟨"ctxswitch", "gdoc", "u", "c1", "/go/src/g"⟩ =
      (false, [("gdoc/ctxswitch", ⟨"ctxswitch", "gdoc", "u", "c1", "/go/src/g"⟩)]) := by
  have h := update_new_once [] ⟨"ctxswitch", "gdoc", "u", "c1", "/go/src/g"⟩ (by decide)
  exact ⟨by decide, by simpa using h.1, by simpa using h.2.2⟩

/-- C2: for a key already present, an observation with the stored `commitSHA`
is reported unchanged with the whole record set unmutated, and an observation
with a different `commitSHA` is reported changed with the retained record for
that key replaced by the observed state. -/
theorem update_known_key (m : RepoMap) (r stored : Repo)
    (h : mapFind m (keyOf r) = some stored) :
    (r.commitSHA = stored.commitSHA → update m r = (false, m)) ∧
    (r.commitSHA ≠ stored.commitSHA →
      update m r = (true, mapInsert m (keyOf r) r) ∧
      mapFind (update m r).2 (keyOf r) = some r) := by
  constructor
  · intro heq
    simp [update, h, heq]
  · intro hne
    refine ⟨by simp [update, h, hne], ?_⟩
    simp [update, h, hne, mapFind_mapInsert]

theorem update_known_key_witness :
    mapFind [("gdoc/ctxswitch", ⟨"ctxswitch", "gdoc", "u", "c1", "p"⟩)]
        (keyOf ⟨"ctxswitch", "gdoc", "u", "c2", "p"⟩) =
      some ⟨"ctxswitch", "gdoc", "u", "c1", "p"⟩ ∧
    update [("gdoc/ctxswitch", ⟨"ctxswitch", "gdoc", "u", "c1", "p"⟩)]
        ⟨"ctxswitch", "gdoc", "u", "c2", "p"⟩ =
      (true, [("gdoc/ctxswitch", ⟨"ctxswitch", "gdoc", "u", "c2", "p"⟩)]) := by
  have h := update_known_key
    [("gdoc/ctxswitch", ⟨"ctxswitch", "gdoc", "u", "c1", "p"⟩)]
    ⟨"ctxswitch", "gdoc", "u", "c2", "p"⟩
    ⟨"ctxswitch", "gdoc", "u", "c1", "p"⟩ (by decide)
  exact ⟨by decide, by simpa using (h.2 (by decide)).1⟩

/-- C9: the retained-record key is `name ++ "/" ++ owner`, and this key is not
injective over arbitrary strings: the distinct pairs
(owner `"b"`, name `"a/c"`) and (owner `"c/b"`, name `"a"`) share the key
`"a/c/b"`, so after the first repository's record is inserted, an observation
of the second repository with the same `commitSHA` is classified unchanged on
the basis of a record inserted for a different repository. -/
theorem keyOf_not_injective :
    (∀ r : Repo, keyOf r = r.name ++ "/" ++ r.owner) ∧
    keyOf ⟨"b", "a/c", "u1", "s1", "p1"⟩ = keyOf ⟨"c/b", "a", "u2", "s1", "p2"⟩ ∧
    ((⟨"b", "a/c", "u1", "s1", "p1"⟩ : Repo).owner,
      (⟨"b", "a/c", "u1", "s1", "p1"⟩ : Repo).name) ≠
      ((⟨"c/b", "a", "u2", "s1", "p2"⟩ : Repo).owner,
        (⟨"c/b", "a", "u2", "s1", "p2"⟩ : Repo).name) ∧
    (update (update [] ⟨"b", "a/c", "u1", "s1", "p1"⟩).2
        ⟨"c/b", "a", "u2", "s1", "p2"⟩).1 = false := by
  refine ⟨fun r => rfl, by decide, by decide, by decide⟩

/-- C3: `get` dispatches to clone exactly when `localPath` does not exist on
the filesystem and to pull otherwise, and the chosen operation depends only on
the filesystem-existence oracle — two environments agreeing on `fsExists`
dispatch identically whatever their transports do. -/
theorem get_dispatch (e1 e2 : Env) (r : Repo)
    (hfs : e1.fsExists = e2.fsExists) :
    ((get e1 r).1 = MirrorOp.clone ↔ e1.fsExists r.localPath = false) ∧
    ((get e1 r).1 = MirrorOp.pull ↔ e1.fsExists r.localPath = true) ∧
    (get e1 r).1 = (get e2 r).1 := by
  refine ⟨?_, ?_, ?_⟩ <;>
    cases h : e1.fsExists r.localPath <;>
      simp [get, h, ← hfs]

theorem get_dispatch_witness :
    ((get ⟨"/go", none, fun _ => none, none, fun _ => false,
        fun _ => true, fun _ => false⟩ ⟨"o", "n", "u", "c", "/go/p"⟩).1 =
      MirrorOp.clone ↔
      (false : Bool) = false) ∧
    (get ⟨"/go", none, fun _ => none, none, fun _ => false,
        fun _ => true, fun _ => false⟩ ⟨"o", "n", "u", "c", "/go/p"⟩).1 =
      (get ⟨"/go", none, fun _ => none, none, fun _ => false,
        fun _ => false, fun _ => true⟩ ⟨"o", "n", "u", "c", "/go/p"⟩).1 := by
  have h := get_dispatch
    ⟨"/go", none, fun _ => none, none, fun _ => false,
      fun _ => true, fun _ => false⟩
    ⟨"/go", none, fun _ => none, none, fun _ => false,
      fun _ => false, fun _ => true⟩
    ⟨"o", "n", "u", "c", "/go/p"⟩ rfl
  exact ⟨h.1, h.2.2⟩

theorem syncStep_fst (env : Env) (i : Nat) (m : RepoMap) (g : GhRepo) :
    (syncStep env i m g).1 =
      match getBranch env i g with
      | none => m
      | some sha => (update m { mkRepo env.goRoot g with commitSHA := sha }).2 := by
  unfold syncStep
  cases h : getBranch env i g
  · rfl
  · simp only []
    split <;> rfl

theorem syncGo_map_eq (e1 e2 : Env)
    (hroot : e1.goRoot = e2.goRoot) (hbr : e1.branchSHA = e2.branchSHA)
    (hc : e1.cancelAt = e2.cancelAt) :
    ∀ (l : List GhRepo) (i : Nat) (m : RepoMap),
      (syncGo e1 l i m).1 = (syncGo e2 l i m).1 := by
  intro l
  induction l with
  | nil => intro i m; rfl
  | cons g rest ih =>
    intro i m
    have hstep : (syncStep e1 i m g).1 = (syncStep e2 i m g).1 := by
      rw [syncStep_fst, syncStep_fst, hroot]
      have hgb : getBranch e1 i g = getBranch e2 i g := by
        simp [getBranch, isCancelled, hbr, hc]
      rw [hgb]
    simp only [syncGo]
    rw [hstep, ih]

/-- C4: the retained record set produced by one cycle is independent of every
mirror outcome — two environments agreeing on the discovery inputs (root,
search listing, branch resolution, cancellation) but with arbitrary
filesystem and transport oracles yield the same final record set — and after
each loop iteration the record set is exactly what the change detector
(`update`) produced at detection time, before `get`/clone/pull ran, so a
failed mirror operation never mutates the retained record. -/
theorem mirror_failure_frame (e1 e2 : Env) (m : RepoMap)
    (hroot : e1.goRoot = e2.goRoot) (hsr : e1.searchResult = e2.searchResult)
    (hbr : e1.branchSHA = e2.branchSHA) (hc : e1.cancelAt = e2.cancelAt) :
    (sync e1 m).1 = (sync e2 m).1 ∧
    (∀ (i : Nat) (g : GhRepo),
      (syncStep e1 i m g).1 =
        match getBranch e1 i g with
        | none => m
        | some sha => (update m { mkRepo e1.goRoot g with commitSHA := sha }).2) := by
  refine ⟨?_, fun i g => syncStep_fst e1 i m g⟩
  unfold sync
  rw [← hsr]
  cases e1.searchResult with
  | none => rfl
  | some l => exact syncGo_map_eq e1 e2 hroot hbr hc l 0 m

theorem mirror_failure_frame_witness :
    (sync envA []).1 = (sync envB []).1 := by
  exact (mirror_failure_frame envA envB [] rfl rfl rfl rfl).1

/-- C6: within one cycle, a failed search listing aborts the cycle with the
record set unmutated; a failed branch resolution for one repository skips
exactly that repository — the record set is passed through unchanged — and
the loop continues with the remaining repositories. -/
theorem sync_failure_containment (env : Env) (m : RepoMap) (g : GhRepo)
    (i : Nat) (rest : List GhRepo)
    (hg : env.branchSHA g = none) (hc : env.cancelAt = none) :
    (env.searchResult = none → sync env m = (m, [SyncAction.searchFailed])) ∧
    syncStep env i m g = (m, SyncAction.branchFailed g) ∧
    syncGo env (g :: rest) i m =
      ((syncGo env rest (i + 1) m).1,
        SyncAction.branchFailed g :: (syncGo env rest (i + 1) m).2) := by
  have hstep : syncStep env i m g = (m, SyncAction.branchFailed g) := by
    simp [syncStep, getBranch, isCancelled, hc, hg]
  refine ⟨fun h => by simp [sync, h], hstep, ?_⟩
  simp only [syncGo, hstep]

theorem sync_failure_containment_witness :
    sync envF [] = ([], [SyncAction.searchFailed]) ∧
    syncStep envF 0 [] gA = ([], SyncAction.branchFailed gA) := by
  have h := sync_failure_containment envF [] gA 0 [] rfl rfl
  exact ⟨h.1 rfl, h.2.1⟩

theorem startAux_cancel (envs : Nat → Env) :
    ∀ (evs : List Ev), Ev.cancel ∈ evs → ∀ (n : Nat) (m : RepoMap),
      startAux envs evs n m = StartResult.stopped := by
  intro evs
  induction evs with
  | nil => intro h; cases h
  | cons e rest ih =>
    intro h n m
    cases e with
    | cancel => rfl
    | tick =>
      have hr : Ev.cancel ∈ rest := by
        rcases List.mem_cons.mp h with h1 | h1
        · cases h1
        · exact h1
      exact ih hr (n + 1) _

theorem startAux_shape (envs : Nat → Env) :
    ∀ (evs : List Ev) (n : Nat) (m : RepoMap),
      startAux envs evs n m = StartResult.stopped ∨
        ∃ m2, startAux envs evs n m = StartResult.running m2 := by
  intro evs
  induction evs with
  | nil => intro n m; exact Or.inr ⟨m, rfl⟩
  | cons e rest ih =>
    intro n m
    cases e with
    | cancel => exact Or.inl rfl
    | tick => exact ih (n + 1) _

/-- C5: `start` yields the returned error exactly when the poll-interval
string fails to parse (in which case the loop never begins); for a parseable
positive interval the outcome is independent of every discovery, branch and
mirror failure — it is `stopped` (a `nil` return) whenever a cancellation is
observed, and otherwise the loop is still running — so no per-cycle or
per-repository failure ever propagates out of `start`. -/
theorem start_error_policy (interval : String) (envs : Nat → Env) (evs : List Ev) :
    (∀ e, start interval envs evs = StartResult.parseError e ↔
      parseDuration interval = Except.error e) ∧
    (∀ d, parseDuration interval = Except.ok d → 0 < d →
      ((Ev.cancel ∈ evs → start interval envs evs = StartResult.stopped) ∧
        (start interval envs evs = StartResult.stopped ∨
          ∃ m, start interval envs evs = StartResult.running m))) := by
  constructor
  · intro e
    constructor
    · intro h
      cases hp : parseDuration interval with
      | error e2 =>
        have h2 : start interval envs evs = StartResult.parseError e2 := by
          simp [start, hp]
        rw [h2] at h
        injection h with he
        subst he
        rfl
      | ok d =>
        exfalso
        by_cases hd : d ≤ 0
        · have h2 : start interval envs evs =
              StartResult.panicked "non-positive interval for NewTicker" := by
            simp [start, hp, hd]
          rw [h2] at h
          exact StartResult.noConfusion h
        · have h2 : start interval envs evs = startAux envs evs 0 [] := by
            simp [start, hp, hd]
          rcases startAux_shape envs evs 0 [] with h3 | ⟨m2, h3⟩ <;>
            rw [h2, h3] at h <;> exact StartResult.noConfusion h
    · intro h
      simp [start, h]
  · intro d hp hd
    have h2 : start interval envs evs = startAux envs evs 0 [] := by
      simp [start, hp, if_neg (not_le.mpr hd)]
    refine ⟨fun hcin => ?_, ?_⟩
    · rw [h2]
      exact startAux_cancel envs evs hcin 0 []
    · rw [h2]
      exact startAux_shape envs evs 0 []

theorem start_error_policy_witness :
    start "5m" (fun _ => envA) [Ev.tick, Ev.cancel] = StartResult.stopped := by
  have h := (start_error_policy "5m" (fun _ => envA) [Ev.tick, Ev.cancel]).2
    300000000000 (by rfl) (by decide)
  exact h.1 (by decide)

/-- C7: the ticker armed by `start` fires first exactly one full interval
after startup and never earlier, so no poll cycle runs at startup (with no
events observed the loop is still running with an empty record set and no
cycle has executed), and a cancellation observed while idle stops the loop in
a single check, returning `nil`. -/
theorem scheduler_no_immediate_poll (interval : String) (d : Int)
    (envs : Nat → Env)
    (h : parseDuration interval = Except.ok d) (hd : 0 < d) :
    tickerFireTime d 0 = d ∧
    (∀ k : Nat, d ≤ tickerFireTime d k) ∧
    start interval envs [] = StartResult.running [] ∧
    start interval envs [Ev.cancel] = StartResult.stopped := by
  have hstart : ∀ evs, start interval envs evs = startAux envs evs 0 [] := by
    intro evs
    simp [start, h, if_neg (not_le.mpr hd)]
  refine ⟨by simp [tickerFireTime], ?_, ?_, ?_⟩
  · intro k
    have hk : (1 : Int) ≤ (k : Int) + 1 := by
      have : (0 : Int) ≤ (k : Int) := Int.natCast_nonneg k
      omega
    calc d = 1 * d := (one_mul d).symm
    _ ≤ ((k : Int) + 1) * d := mul_le_mul_of_nonneg_right hk hd.le
  · rw [hstart]; rfl
  · rw [hstart]; rfl

theorem scheduler_no_immediate_poll_witness :
    tickerFireTime 300000000000 0 = 300000000000 ∧
    start "5m" (fun _ => envA) [Ev.cancel] = StartResult.stopped := by
  have h := scheduler_no_immediate_poll "5m" 300000000000 (fun _ => envA)
    (by rfl) (by decide)
  exact ⟨h.1, h.2.2.2⟩

theorem syncGo_length (env : Env) :
    ∀ (l : List GhRepo) (i : Nat) (m : RepoMap),
      (syncGo env l i m).2.length = l.length := by
  intro l
  induction l with
  | nil => intro i m; rfl
  | cons g rest ih => intro i m; simp [syncGo, ih]

theorem syncGo_append (env : Env) :
    ∀ (l1 l2 : List GhRepo) (i : Nat) (m : RepoMap),
      syncGo env (l1 ++ l2) i m =
        ((syncGo env l2 (i + l1.length) (syncGo env l1 i m).1).1,
          (syncGo env l1 i m).2 ++
            (syncGo env l2 (i + l1.length) (syncGo env l1 i m).1).2) := by
  intro l1
  induction l1 with
  | nil => intro l2 i m; simp [syncGo]
  | cons g rest ih =>
    intro l2 i m
    have hidx : i + 1 + rest.length = i + (rest.length + 1) := by omega
    simp [syncGo, List.append_eq, ih, hidx]

theorem syncGo_cancelled (env : Env) (k : Nat) (hk : env.cancelAt = some k) :
    ∀ (l : List GhRepo) (i : Nat) (m : RepoMap), k ≤ i →
      syncGo env l i m = (m, l.map SyncAction.branchFailed) := by
  intro l
  induction l with
  | nil => intro i m _; simp [syncGo]
  | cons g rest ih =>
    intro i m h
    have hstep : syncStep env i m g = (m, SyncAction.branchFailed g) := by
      simp [syncStep, getBranch, isCancelled, hk, h]
    simp [syncGo, hstep, ih (i + 1) m (by omega)]

/-- C8 counterexample: with two discovered repositories and the cancellation
signal raised between the first and the second (`cancelAt = some 1`), the
cycle still begins processing the second repository — its branch resolution
call is issued (failing under the cancelled context) and leaves a trace
action — so it is false that no new repository processing begins after the
signal is observed between repositories. -/
theorem sync_cancel_counterexample :
    envC8.cancelAt = some 1 ∧
    (sync envC8 []).2.length = 2 ∧
    (sync envC8 []).2.getLast? = some (SyncAction.branchFailed gB) ∧
    ¬ (sync envC8 []).2.length ≤ 1 := by
  refine ⟨rfl, by decide, by decide, by decide⟩

/-- C8 amended: cancellation during a cycle does not abort in-flight
per-repository work, but the loop has no between-repository cancellation
check either: every remaining repository is still attempted. Under the
cancelled context each remaining branch resolution fails, so each remaining
repository is skipped with no record mutation and no mirror work — the final
record set is exactly that of the repositories processed before the signal —
and once the cycle returns, the scheduler observes the signal at its next
check and stops, returning `nil`. -/
theorem sync_cancel_mid_cycle (env : Env) (l : List GhRepo) (k : Nat)
    (m : RepoMap)
    (hs : env.searchResult = some l) (hc : env.cancelAt = some k) :
    sync env m =
      ((syncGo env (l.take k) 0 m).1,
        (syncGo env (l.take k) 0 m).2 ++
          (l.drop k).map SyncAction.branchFailed) ∧
    (sync env m).2.length = l.length ∧
    (∀ (envs : Nat → Env) (n : Nat) (m2 : RepoMap),
      startAux envs [Ev.cancel] n m2 = StartResult.stopped) := by
  have hsync : sync env m = syncGo env l 0 m := by simp [sync, hs]
  have hsplit : syncGo env l 0 m =
      ((syncGo env (l.take k) 0 m).1,
        (syncGo env (l.take k) 0 m).2 ++
          (l.drop k).map SyncAction.branchFailed) := by
    conv_lhs => rw [← List.take_append_drop k l]
    rw [syncGo_append]
    by_cases hkl : k ≤ l.length
    · have hcond : k ≤ 0 + (l.take k).length := by
        simp [List.length_take]
        omega
      rw [syncGo_cancelled env k hc (l.drop k) (0 + (l.take k).length)
        (syncGo env (l.take k) 0 m).1 hcond]
    · have hdrop : l.drop k = [] := by
        apply List.drop_eq_nil_of_le
        omega
      have htake : l.take k = l := by
        apply List.take_of_length_le
        omega
      simp [hdrop, htake, syncGo]
  refine ⟨hsync.trans hsplit, ?_, fun envs n m2 => rfl⟩
  rw [hsync, hsplit]
  simp [syncGo_length, List.length_take, List.length_drop]
  omega

theorem sync_cancel_mid_cycle_witness :
    sync envC8 [] =
      ((syncGo envC8 ([gA, gB].take 1) 0 []).1,
        (syncGo envC8 ([gA, gB].take 1) 0 []).2 ++
          ([gA, gB].drop 1).map SyncAction.branchFailed) ∧
    (sync envC8 []).2.length = [gA, gB].length := by
  have h := sync_cancel_mid_cycle envC8 [gA, gB] 1 [] rfl rfl
  exact ⟨h.1, h.2.1⟩

/-- C10: the documented example interval `"-1.5h"` and the zero interval
`"0s"` parse successfully to non-positive durations, and with either
configured, `start` neither returns an error nor enters the poll loop for any
environment and any observations: it reaches `time.NewTicker` with a
non-positive duration, which panics. -/
theorem nonpositive_interval_panics :
    parseDuration "-1.5h" = Except.ok (-5400000000000) ∧
    parseDuration "0s" = Except.ok 0 ∧
    (∀ (envs : Nat → Env) (evs : List Ev),
      start "-1.5h" envs evs =
        StartResult.panicked "non-positive interval for NewTicker") ∧
    (∀ (envs : Nat → Env) (evs : List Ev),
      start "0s" envs evs =
        StartResult.panicked "non-positive interval for NewTicker") := by
  have h1 : parseDuration "-1.5h" = Except.ok (-5400000000000) := by rfl
  have h2 : parseDuration "0s" = Except.ok 0 := by rfl
  refine ⟨h1, h2, ?_, ?_⟩ <;> intro envs evs
  · simp [start, h1]
  · simp [start, h2]

end Gdoc
